import Mathlib

/-!
Verification of the djtx-tester control plane: a shallow embedding of the
client-side stream classifier and receive loop (client/client.go) and of the
local-network orchestrator (server/network.go), with theorems checking the
natural-language specification against the code.
-/

namespace DjtxTester

/-! ## gRPC status model (client/client.go)

Go errors as observed by the receive loop, and the subset of gRPC status
codes the classifier inspects. -/

/-- The gRPC status codes relevant to isClientCanceled; ok, unknown and
notFound stand for every code the switch does not name. -/
inductive Code
  | ok
  | canceled
  | deadlineExceeded
  | unavailable
  | unknown
  | notFound
deriving DecidableEq, Repr

/-- Go error values observed by the client receive loop: io.EOF, a gRPC
status error carrying a code and a message, or any other plain error. -/
inductive GoError
  | eof
  | statusErr (code : Code) (msg : String)
  | plain (msg : String)
deriving DecidableEq, Repr

/-- status.FromError: yields the status (code, message) with ok = true for a
status error, and ok = false (modelled as none) for any other error. -/
def statusFromError : GoError → Option (Code × String)
  | GoError.statusErr c m => some (c, m)
  | GoError.eof => none
  | GoError.plain _ => none

/-- strings.HasPrefix from the Go standard library, over the character data. -/
def hasPrefixGo (s pre : String) : Bool :=
  pre.data.isPrefixOf s.data

/-- strings.HasSuffix from the Go standard library, over the character data. -/
def hasSuffixGo (s suf : String) : Bool :=
  suf.data.isSuffixOf s.data

/-- isClientCanceled (client/client.go lines 221-251): classify a terminal
stream error as caller-cancelled (true) or not (false), given the reading
context error ctxErr and the receive error err. -/
def isClientCanceled (ctxErr : Option GoError) (err : GoError) : Bool :=
  if ctxErr.isSome then true
  else
    match statusFromError err with
    | none => false
    | some (c, msg) =>
      match c with
      | Code.canceled => true
      | Code.deadlineExceeded => true
      | Code.unavailable =>
        if msg = "client disconnected" then true
        else if hasPrefixGo msg "stream error: " && hasSuffixGo msg "; CANCEL" then true
        else false
      | _ => false

/-! ## Client receive loop (client/client.go, StreamStatus) -/

/-- One iteration input of the StreamStatus receive loop: the top-of-loop
select observes ctx.Done or the closed channel, otherwise RecvMsg returns a
message (abstracted to a Nat payload) or an error together with the stream
context error at that moment. -/
inductive RecvStep
  | ctxDone
  | clientClosed
  | recvOk (v : Nat)
  | recvErr (ctxErr : Option GoError) (e : GoError)
deriving DecidableEq, Repr

/-- Log events the receive loop can emit on termination. -/
inductive LogEvent
  | debugEOF
  | warnCanceled
  | warnTransport
deriving DecidableEq, Repr

/-- Why the receive loop terminated. -/
inductive TermCause
  | ctx
  | closed
  | eofCause
  | recvFailure
deriving DecidableEq, Repr

/-- Observable outcome of the receive loop: the values delivered on the
consumer channel (only *rpcpb.ClusterInfo payloads, never errors), the log
events, whether the deferred close(ch) ran, and the termination cause
(none while the script has not terminated the loop). -/
structure LoopResult where
  delivered : List Nat
  logs : List LogEvent
  chClosed : Bool
  cause : Option TermCause
deriving DecidableEq, Repr

/-- The StreamStatus receive goroutine (client/client.go lines 134-168) run
against a script of iteration inputs: checks ctx.Done and the closed channel
first, delivers received messages, terminates silently (Debug log) on io.EOF,
logs at Warn otherwise, and always runs the deferred close(ch) on exit. -/
def recvLoop : List RecvStep → LoopResult
  | [] => { delivered := [], logs := [], chClosed := false, cause := none }
  | RecvStep.ctxDone :: _ =>
      { delivered := [], logs := [], chClosed := true, cause := some TermCause.ctx }
  | RecvStep.clientClosed :: _ =>
      { delivered := [], logs := [], chClosed := true, cause := some TermCause.closed }
  | RecvStep.recvOk v :: rest =>
      let r := recvLoop rest
      { delivered := v :: r.delivered, logs := r.logs, chClosed := r.chClosed, cause := r.cause }
  | RecvStep.recvErr ctxErr e :: _ =>
      if e = GoError.eof then
        { delivered := [], logs := [LogEvent.debugEOF], chClosed := true,
          cause := some TermCause.eofCause }
      else if isClientCanceled ctxErr e then
        { delivered := [], logs := [LogEvent.warnCanceled], chClosed := true,
          cause := some TermCause.recvFailure }
      else
        { delivered := [], logs := [LogEvent.warnTransport], chClosed := true,
          cause := some TermCause.recvFailure }

/-- The cluster-info payloads a script delivers before its first terminating
step: exactly the messages RecvMsg returned without error. -/
def okValues : List RecvStep → List Nat
  | RecvStep.recvOk v :: rest => v :: okValues rest
  | _ => []

/-! ## Node registry (server/network.go, newNetwork and waitForHealthy)

The per-node registry entry rpcpb.NodeInfo, its construction in newNetwork,
and the URI/ID fill loop on the success path of waitForHealthy. The opaque
serialized config payload is not modelled; no claim mentions it. -/

/-- rpcpb.NodeInfo as populated by the orchestrator (config payload omitted). -/
structure NodeInfo where
  name : String
  execPath : String
  uri : String
  id : String
  logDir : String
  dbDir : String
  whitelistedSubnets : String
deriving DecidableEq, Repr

/-- fmt.Sprintf of node names in newNetwork: nodeName i is the name of the
node at index i, namely "node" followed by the decimal rendering of i+1. -/
def nodeName (i : Nat) : String :=
  "node" ++ Nat.repr (i + 1)

/-- The log-level defaulting at the top of newNetwork: an empty level
becomes "INFO". -/
def effectiveLogLevel (logLevel : String) : String :=
  if logLevel = "" then "INFO" else logLevel

/-- One registry entry as newNetwork creates it (network.go lines 110-119):
URI and ID both empty, directories derived from the root data directory. -/
def mkNodeInfo (execPath rootDataDir whitelistedSubnets : String) (i : Nat) : NodeInfo :=
  { name := nodeName i
    execPath := execPath
    uri := ""
    id := ""
    logDir := rootDataDir ++ "/" ++ nodeName i ++ "/log"
    dbDir := rootDataDir ++ "/" ++ nodeName i ++ "/db-dir"
    whitelistedSubnets := whitelistedSubnets }

/-- The nodeInfos registry built by newNetwork for n configured nodes, as an
association list keyed by node name. -/
def newNodeInfos (n : Nat) (execPath rootDataDir whitelistedSubnets : String) :
    List (String × NodeInfo) :=
  (List.range n).map fun i => (nodeName i, mkNodeInfo execPath rootDataDir whitelistedSubnets i)

/-- The external node handle returned by the launch collaborator: GetURL,
GetAPIPort and GetNodeID of network/node.Node. -/
structure NodeHandle where
  url : String
  apiPort : Nat
  nodeID : String
deriving DecidableEq, Repr

/-- constants.NodeIDPrefix from dijetsnodego, used by PrefixedString. -/
def nodeIDPrefixConst : String := "NodeID-"

/-- The URI/ID fill of one registry entry (network.go lines 187-191):
uri = fmt.Sprintf of the node URL and API port, id = the prefixed node ID. -/
def fillNodeInfo (info : NodeInfo) (h : NodeHandle) : NodeInfo :=
  { info with
      uri := "http://" ++ h.url ++ ":" ++ Nat.repr h.apiPort
      id := nodeIDPrefixConst ++ h.nodeID }

/-- One iteration of the fill loop: write lc.nodeInfos[name].Uri and .Id.
If name is absent from the registry the Go map read yields a nil pointer and
the field write faults; modelled as none. -/
def setNodeInfo (reg : List (String × NodeInfo)) (name : String) (h : NodeHandle) :
    Option (List (String × NodeInfo)) :=
  if reg.any fun p => p.1 = name then
    some (reg.map fun p => if p.1 = name then (p.1, fillNodeInfo p.2 h) else p)
  else none

/-- The whole fill loop of waitForHealthy (network.go lines 186-195) over the
handles returned by GetAllNodes. -/
def fillRegistry : List (String × NodeInfo) → List (String × NodeHandle) →
    Option (List (String × NodeInfo))
  | reg, [] => some reg
  | reg, (name, h) :: rest =>
    match setNodeInfo reg name h with
    | some reg2 => fillRegistry reg2 rest
    | none => none

/-- A registry entry with URI and identifier both populated. -/
abbrev filledInfo (info : NodeInfo) : Prop :=
  info.uri ≠ "" ∧ info.id ≠ ""

/-- The half-initialization invariant on a registry entry: URI and identifier
are both empty or both non-empty. -/
abbrev wellFormedInfo (info : NodeInfo) : Prop :=
  (info.uri = "" ∧ info.id = "") ∨ (info.uri ≠ "" ∧ info.id ≠ "")

/-- A node name covered by the handle list returned from GetAllNodes. -/
abbrev covered (handles : List (String × NodeHandle)) (name : String) : Prop :=
  ∃ q ∈ handles, q.1 = name

/-! ## Registry publication (waitForHealthy success path plus readyc)

The fill loop writes entries one at a time; readyc is closed only after the
loop (network.go lines 197-199). The registry state after k handle writes,
and the reader gate on the ready signal. -/

/-- Registry contents after the first k writes of the fill loop. -/
def registryAfter (reg : List (String × NodeInfo)) (handles : List (String × NodeHandle))
    (k : Nat) : Option (List (String × NodeInfo)) :=
  fillRegistry reg (handles.take k)

/-- readyc observed at step k of the fill loop: closed only once every
handle has been written (network.go lines 197-199). -/
def readycClosedAfter (handles : List (String × NodeHandle)) (k : Nat) : Bool :=
  handles.length ≤ k

/-- Modelled from the spec: the registry readers (the ControlService facade,
whose source is not under src/) obtain the registry only behind the ready
signal, per "the registry is published atomically (all-or-nothing - partial
registries are never observable to readers)". An observation at step k
returns the registry only if readyc is already closed. -/
def readerObservation (reg : List (String × NodeInfo)) (handles : List (String × NodeHandle))
    (k : Nat) : Option (Option (List (String × NodeInfo))) :=
  if readycClosedAfter handles k then some (registryAfter reg handles k) else none

/-! ## Health wait (server/network.go, waitForHealthy select) -/

/-- time.Minute in nanoseconds, the unit of Go durations. -/
def timeMinute : Nat := 60000000000

/-- const healthyWait = 2 * time.Minute (network.go line 159). -/
def healthyWait : Nat := 2 * timeMinute

/-- The orchestrator errors: local.NewNetwork failure, errAborted, the
context deadline error, an unhealthy report from the Healthy channel, and a
GetAllNodes failure. -/
inductive NetError
  | launch (msg : String)
  | aborted
  | deadlineExceeded
  | health (msg : String)
  | getAllNodes (msg : String)
deriving DecidableEq, Repr

/-- The three cases of the select in waitForHealthy (network.go lines
169-178): the stop channel, the context deadline, and the Healthy channel. -/
inductive SelCase
  | stopc
  | ctxDone
  | hc
deriving DecidableEq, Repr

/-- Timing environment of one waitForHealthy run: when the stop channel
closes (if ever), when the Healthy channel delivers its result (if ever),
and that result (none = nil error, the cluster is healthy). -/
structure HealthEnv where
  stopAt : Option Nat
  healthAt : Option Nat
  healthRes : Option String
deriving DecidableEq, Repr

/-- When each select case becomes ready: stopc at the stop time, ctx.Done at
the healthyWait deadline of context.WithTimeout, hc at the delivery time. -/
def readyAt (env : HealthEnv) : SelCase → Option Nat
  | SelCase.stopc => env.stopAt
  | SelCase.ctxDone => some healthyWait
  | SelCase.hc => env.healthAt

/-- Whether t is no later than every time at which o is ready. -/
def noLaterThan (t : Nat) (o : Option Nat) : Bool :=
  match o with
  | none => true
  | some u => t ≤ u

/-- A select case can win the select iff it becomes ready and no other case
becomes ready strictly earlier; Go resolves ties among simultaneously ready
cases nondeterministically, so any minimal case may win. -/
def winsSelect (env : HealthEnv) (c : SelCase) : Bool :=
  match readyAt env c with
  | none => false
  | some t =>
    noLaterThan t (readyAt env SelCase.stopc)
      && noLaterThan t (readyAt env SelCase.ctxDone)
      && noLaterThan t (readyAt env SelCase.hc)

/-- What waitForHealthy returns from each select arm: errAborted on stopc,
ctx.Err() = DeadlineExceeded on ctx.Done, and on hc the received error if
non-nil, none meaning the success path continues. -/
def selCaseResult (env : HealthEnv) : SelCase → Option NetError
  | SelCase.stopc => some NetError.aborted
  | SelCase.ctxDone => some NetError.deadlineExceeded
  | SelCase.hc =>
    match env.healthRes with
    | some e => some (NetError.health e)
    | none => none

/-! ## start (server/network.go lines 140-157) -/

/-- Observable outcome of one start() run: whether the deferred close of the
done channel ran, the errors sent to the error channel, and whether lc.nw was
assigned. -/
structure StartResult where
  donecClosed : Bool
  errcSent : List NetError
  nwAssigned : Bool
deriving DecidableEq, Repr

/-- errc := make(chan error, 1) in newNetwork (network.go line 136). -/
def errcCapacity : Nat := 1

/-- start() as a function of the outcome of local.NewNetwork (some message on
failure) and of waitForHealthy (some error on failure): the deferred
close(lc.donec) runs on every path, and on any failure exactly one error is
sent to errc. -/
def startRun (newNetworkRes : Option String) (healthRes : Option NetError) : StartResult :=
  match newNetworkRes with
  | some e => { donecClosed := true, errcSent := [NetError.launch e], nwAssigned := false }
  | none =>
    match healthRes with
    | some werr => { donecClosed := true, errcSent := [werr], nwAssigned := true }
    | none => { donecClosed := true, errcSent := [], nwAssigned := true }

/-! ## stop (server/network.go lines 203-210) -/

/-- Orchestrator state relevant to stop(): whether lc.nw was assigned by
start(), whether the sync.Once already fired, whether the stop channel is
closed, how many times the external lc.nw.Stop ran, and whether the wait on
lc.donec completed. -/
structure StopState where
  nwAssigned : Bool
  stopOnceUsed : Bool
  stopcClosed : Bool
  nwStopCalls : Nat
  donecWaited : Bool
deriving DecidableEq, Repr

/-- Outcome of one stop() call: a normal return with the new state, or the
runtime fault of calling Stop on a nil network interface. -/
inductive StopExec
  | ok (s : StopState)
  | nilDeref
deriving DecidableEq, Repr

/-- One stop() call (network.go lines 203-210). The sync.Once body closes
lc.stopc, invokes lc.nw.Stop, then waits on lc.donec; once lc.nw is
assigned, closing stopc forces waitForHealthy and hence start() to return,
so the donec wait completes. When lc.nw was never assigned (start() not yet
run, or local.NewNetwork failed), lc.nw.Stop dereferences a nil interface. -/
def stopCall (s : StopState) : StopExec :=
  if s.stopOnceUsed then StopExec.ok s
  else
    let s1 : StopState :=
      { s with stopOnceUsed := true, stopcClosed := true }
    if s1.nwAssigned then
      StopExec.ok { s1 with nwStopCalls := s1.nwStopCalls + 1, donecWaited := true }
    else StopExec.nilDeref

/-- n sequential stop() calls; sync.Once serializes concurrent callers, each
of whom returns only once the first caller's body has completed. -/
def stopCalls : Nat → StopState → StopExec
  | 0, s => StopExec.ok s
  | Nat.succ n, s =>
    match stopCall s with
    | StopExec.ok s2 => stopCalls n s2
    | StopExec.nilDeref => StopExec.nilDeref

/-- The stop-relevant state right after newNetwork, before start() ran. -/
def newNetworkStopState : StopState :=
  { nwAssigned := false, stopOnceUsed := false, stopcClosed := false,
    nwStopCalls := 0, donecWaited := false }

/-- The stop-relevant state once start() assigned lc.nw. -/
def postStartStopState : StopState :=
  { nwAssigned := true, stopOnceUsed := false, stopcClosed := false,
    nwStopCalls := 0, donecWaited := false }

/-! ## Decimal rendering facts

newNetwork names nodes with fmt.Sprintf, embedded through Nat.repr; the
distinctness of the generated names needs injectivity of the decimal
rendering, proved here through an explicit decode function. -/

/-- Decimal digit characters of n, most significant first; the fuel-free
mirror of Nat.toDigits 10. -/
def digitsOf (n : Nat) : List Char :=
  if _h : n < 10 then [Nat.digitChar n]
  else digitsOf (n / 10) ++ [Nat.digitChar (n % 10)]
decreasing_by
  exact Nat.div_lt_self (by omega) (by omega)

/-- Value of a decimal digit character. -/
def digitVal (c : Char) : Nat := c.toNat - '0'.toNat

/-- Decode a most-significant-first decimal digit list onto an accumulator. -/
def decodeAux (acc : Nat) : List Char → Nat
  | [] => acc
  | c :: cs => decodeAux (acc * 10 + digitVal c) cs

/-- Concrete handles for two nodes, used by the closed witness theorems. -/
def witnessHandles : List (String × NodeHandle) :=
  [("node1", { url := "127.0.0.1", apiPort := 9650, nodeID := "6Y3kysjF9jnHnYkdS9yGAuoHyae2eNmeV" }),
   ("node2", { url := "127.0.0.1", apiPort := 9652, nodeID := "MFrZFVCXPv5iCn6M9K6XduxGTYp891xXZ" })]

theorem toDigitsCore_eq_digitsOf (fuel : Nat) :
    ∀ n ds, n < fuel → Nat.toDigitsCore 10 fuel n ds = digitsOf n ++ ds := by
  induction fuel with
  | zero => intro n ds h; omega
  | succ f ih =>
    intro n ds h
    by_cases h0 : n / 10 = 0
    · have hn : n < 10 := by omega
      rw [Nat.toDigitsCore]
      simp only [h0, if_true]
      rw [digitsOf]
      simp [hn, Nat.mod_eq_of_lt hn]
    · have hn : ¬ n < 10 := by
        intro hlt
        exact h0 (Nat.div_eq_of_lt hlt)
      have hdiv : n / 10 < n := Nat.div_lt_self (by omega) (by omega)
      rw [Nat.toDigitsCore]
      simp only [h0, if_false]
      rw [ih (n / 10) _ (by omega)]
      conv_rhs => rw [digitsOf]
      simp [hn]

theorem toDigits_eq_digitsOf (n : Nat) : Nat.toDigits 10 n = digitsOf n := by
  rw [Nat.toDigits, toDigitsCore_eq_digitsOf (n + 1) n [] (Nat.lt_succ_self n),
    List.append_nil]

theorem decodeAux_append (l1 : List Char) :
    ∀ acc l2, decodeAux acc (l1 ++ l2) = decodeAux (decodeAux acc l1) l2 := by
  induction l1 with
  | nil => intro acc l2; rfl
  | cons c cs ih =>
    intro acc l2
    rw [List.cons_append]
    show decodeAux (acc * 10 + digitVal c) (cs ++ l2) = _
    rw [ih]
    rfl

theorem digitVal_digitChar (n : Nat) (h : n < 10) : digitVal (Nat.digitChar n) = n := by
  interval_cases n <;> decide

theorem digitsOf_lt (n : Nat) (h : n < 10) : digitsOf n = [Nat.digitChar n] := by
  rw [digitsOf]
  simp [h]

theorem digitsOf_ge (n : Nat) (h : ¬ n < 10) :
    digitsOf n = digitsOf (n / 10) ++ [Nat.digitChar (n % 10)] := by
  rw [digitsOf]
  simp [h]

theorem decodeAux_digitsOf (n : Nat) :
    ∀ acc, decodeAux acc (digitsOf n) = acc * 10 ^ (digitsOf n).length + n := by
  induction n using Nat.strong_induction_on with
  | _ n ih =>
    intro acc
    by_cases h : n < 10
    · rw [digitsOf_lt n h]
      show acc * 10 + digitVal (Nat.digitChar n) = acc * 10 ^ [Nat.digitChar n].length + n
      rw [digitVal_digitChar n h]
      norm_num
    · have hdiv : n / 10 < n := Nat.div_lt_self (by omega) (by omega)
      rw [digitsOf_ge n h, decodeAux_append, ih (n / 10) hdiv acc, List.length_append]
      show (acc * 10 ^ (digitsOf (n / 10)).length + n / 10) * 10
            + digitVal (Nat.digitChar (n % 10))
          = acc * 10 ^ ((digitsOf (n / 10)).length + [Nat.digitChar (n % 10)].length) + n
      rw [digitVal_digitChar (n % 10) (Nat.mod_lt n (by omega)), List.length_singleton,
        pow_succ]
      have hdm : n / 10 * 10 + n % 10 = n := by omega
      calc (acc * 10 ^ (digitsOf (n / 10)).length + n / 10) * 10 + n % 10
          = acc * (10 ^ (digitsOf (n / 10)).length * 10) + (n / 10 * 10 + n % 10) := by ring
        _ = acc * (10 ^ (digitsOf (n / 10)).length * 10) + n := by rw [hdm]

theorem digitsOf_injective (m n : Nat) (h : digitsOf m = digitsOf n) : m = n := by
  have hm := decodeAux_digitsOf m 0
  have hn := decodeAux_digitsOf n 0
  rw [h] at hm
  rw [Nat.zero_mul] at hm hn
  omega

theorem natReprData_injective (m n : Nat) (h : (Nat.repr m).data = (Nat.repr n).data) :
    m = n := by
  have hm : (Nat.repr m).data = Nat.toDigits 10 m := rfl
  have hn : (Nat.repr n).data = Nat.toDigits 10 n := rfl
  rw [hm, hn, toDigits_eq_digitsOf, toDigits_eq_digitsOf] at h
  exact digitsOf_injective m n h

theorem string_data_append (s t : String) : (s ++ t).data = s.data ++ t.data := by
  cases s; cases t; rfl

theorem nodeName_injective : Function.Injective nodeName := by
  intro i j h
  have hd := congrArg String.data h
  rw [nodeName, nodeName, string_data_append, string_data_append] at hd
  have := List.append_cancel_left hd
  have := natReprData_injective (i + 1) (j + 1) this
  omega

theorem nodeNames_nodup (n : Nat) : ((List.range n).map nodeName).Nodup :=
  (List.nodup_range n).map nodeName_injective

/-! ## Claim theorems -/

/-- C1: isClientCanceled returns caller-cancelled exactly when the local
reading context error is non-nil, or the RPC status code is Canceled or
DeadlineExceeded, or the code is Unavailable with message exactly
"client disconnected", or Unavailable with a message starting with
"stream error: " and ending with "; CANCEL"; every other error (including
any other Unavailable message) is not classified as caller-cancelled. -/
theorem isClientCanceled_characterization (ctxErr : Option GoError) (err : GoError) :
    isClientCanceled ctxErr err = true ↔
      (ctxErr ≠ none
        ∨ (∃ msg, err = GoError.statusErr Code.canceled msg)
        ∨ (∃ msg, err = GoError.statusErr Code.deadlineExceeded msg)
        ∨ err = GoError.statusErr Code.unavailable "client disconnected"
        ∨ (∃ msg, err = GoError.statusErr Code.unavailable msg
            ∧ hasPrefixGo msg "stream error: " = true
            ∧ hasSuffixGo msg "; CANCEL" = true)) := by
  cases ctxErr with
  | some e => simp [isClientCanceled]
  | none =>
    cases err with
    | eof => simp [isClientCanceled, statusFromError]
    | plain m => simp [isClientCanceled, statusFromError]
    | statusErr c msg =>
      cases c with
      | ok => simp [isClientCanceled, statusFromError]
      | canceled => simp [isClientCanceled, statusFromError]
      | deadlineExceeded => simp [isClientCanceled, statusFromError]
      | unknown => simp [isClientCanceled, statusFromError]
      | notFound => simp [isClientCanceled, statusFromError]
      | unavailable =>
        by_cases h1 : msg = "client disconnected"
        · simp [isClientCanceled, statusFromError, h1]
        · by_cases h2 : hasPrefixGo msg "stream error: " = true
            ∧ hasSuffixGo msg "; CANCEL" = true
          · simp [isClientCanceled, statusFromError, h1, h2.1, h2.2]
          · have h2b : (hasPrefixGo msg "stream error: "
                && hasSuffixGo msg "; CANCEL") = false := by
              cases hp : hasPrefixGo msg "stream error: " with
              | false => simp [hp]
              | true =>
                cases hs : hasSuffixGo msg "; CANCEL" with
                | false => simp [hp, hs]
                | true => exact absurd ⟨hp, hs⟩ h2
            simp [isClientCanceled, statusFromError, h1, h2b, h2]

/-- C7: in the receive loop, the consumer channel carries exactly the
successfully received payloads (never a final error value), on every
termination cause the deferred close of the channel ran, and termination on
io.EOF is silent: its only log event is the Debug-level EOF message, no
warning. -/
theorem recvLoop_channel_closure (script : List RecvStep) :
    (recvLoop script).delivered = okValues script
    ∧ ((recvLoop script).cause.isSome → (recvLoop script).chClosed = true)
    ∧ ((recvLoop script).cause = some TermCause.eofCause →
        (recvLoop script).logs = [LogEvent.debugEOF]) := by
  induction script with
  | nil => simp [recvLoop, okValues]
  | cons step rest ih =>
    obtain ⟨ih1, ih2, ih3⟩ := ih
    cases step with
    | ctxDone => simp [recvLoop, okValues]
    | clientClosed => simp [recvLoop, okValues]
    | recvOk v =>
      refine ⟨?_, ?_, ?_⟩
      · simp [recvLoop, okValues, ih1]
      · intro h
        simp only [recvLoop] at h ⊢
        exact ih2 h
      · intro h
        simp only [recvLoop] at h ⊢
        exact ih3 h
    | recvErr ctxErr e =>
      by_cases he : e = GoError.eof
      · simp [recvLoop, okValues, he]
      · by_cases hc : isClientCanceled ctxErr e = true
        · simp [recvLoop, okValues, he, hc]
        · simp [recvLoop, okValues, he, hc]

/-- Witness for C7 at a concrete script: one delivered message followed by a
clean end-of-stream marker. -/
theorem recvLoop_channel_closure_witness :
    (recvLoop [RecvStep.recvOk 7, RecvStep.recvErr none GoError.eof]).delivered
        = okValues [RecvStep.recvOk 7, RecvStep.recvErr none GoError.eof]
    ∧ (recvLoop [RecvStep.recvOk 7, RecvStep.recvErr none GoError.eof]).chClosed = true
    ∧ (recvLoop [RecvStep.recvOk 7, RecvStep.recvErr none GoError.eof]).logs
        = [LogEvent.debugEOF] :=
  ⟨(recvLoop_channel_closure _).1,
   (recvLoop_channel_closure _).2.1 (by decide),
   (recvLoop_channel_closure _).2.2 (by decide)⟩

/-- C3: if the stop signal arrives strictly before the health deadline
elapses and strictly before any health report is delivered, then whichever
select case wins, waitForHealthy returns errAborted - never the deadline
error and never success. -/
theorem waitForHealthy_stop_first (env : HealthEnv) (c : SelCase) (t : Nat)
    (hstop : env.stopAt = some t)
    (hdl : t < healthyWait)
    (hhc : ∀ u, env.healthAt = some u → t < u)
    (hwin : winsSelect env c = true) :
    selCaseResult env c = some NetError.aborted := by
  cases c with
  | stopc => rfl
  | ctxDone =>
    exfalso
    rw [winsSelect] at hwin
    simp only [readyAt, hstop, noLaterThan, Bool.and_eq_true, decide_eq_true_eq] at hwin
    omega
  | hc =>
    exfalso
    cases hh : env.healthAt with
    | none =>
      rw [winsSelect] at hwin
      simp [readyAt, hh] at hwin
    | some u =>
      have hu := hhc u hh
      rw [winsSelect] at hwin
      simp only [readyAt, hh, hstop, noLaterThan, Bool.and_eq_true, decide_eq_true_eq] at hwin
      omega

/-- Witness for C3: the stop channel closes at time 5, well before the
deadline, and no health report ever arrives. -/
theorem waitForHealthy_stop_first_witness :
    selCaseResult { stopAt := some 5, healthAt := none, healthRes := none } SelCase.stopc
      = some NetError.aborted :=
  waitForHealthy_stop_first _ SelCase.stopc 5 rfl (by decide)
    (by intro u h; simp at h) (by decide)

/-- C5: against a collaborator that never reports and with no stop request,
the select always fires (the deadline case is ready at the fixed 2-minute
ceiling), every possible winner yields the context deadline error, and that
error is distinct from errAborted. -/
theorem waitForHealthy_deadline_terminates (env : HealthEnv)
    (hstop : env.stopAt = none) (hhc : env.healthAt = none) :
    winsSelect env SelCase.ctxDone = true
    ∧ (∀ c, winsSelect env c = true → selCaseResult env c = some NetError.deadlineExceeded)
    ∧ readyAt env SelCase.ctxDone = some (2 * timeMinute)
    ∧ NetError.deadlineExceeded ≠ NetError.aborted := by
  refine ⟨?_, ?_, rfl, by simp⟩
  · rw [winsSelect]
    simp [readyAt, hstop, hhc, noLaterThan]
  · intro c hc
    cases c with
    | stopc =>
      rw [winsSelect] at hc
      simp [readyAt, hstop] at hc
    | ctxDone => rfl
    | hc =>
      rw [winsSelect] at hc
      simp [readyAt, hhc] at hc

/-- Witness for C5: the never-healthy, never-stopped environment. -/
theorem waitForHealthy_deadline_terminates_witness :
    winsSelect { stopAt := none, healthAt := none, healthRes := none } SelCase.ctxDone = true
    ∧ selCaseResult { stopAt := none, healthAt := none, healthRes := none } SelCase.ctxDone
        = some NetError.deadlineExceeded :=
  ⟨(waitForHealthy_deadline_terminates _ rfl rfl).1,
   (waitForHealthy_deadline_terminates _ rfl rfl).2.1 SelCase.ctxDone
     (waitForHealthy_deadline_terminates _ rfl rfl).1⟩

/-- C9: start() closes the done channel on every return path (NewNetwork
failure, health-wait failure, success) and sends at most one error to the
error channel, which has capacity 1, so the send never blocks. -/
theorem start_done_and_single_error (newNetworkRes : Option String)
    (healthRes : Option NetError) :
    (startRun newNetworkRes healthRes).donecClosed = true
    ∧ (startRun newNetworkRes healthRes).errcSent.length ≤ errcCapacity := by
  cases newNetworkRes <;> cases healthRes <;> simp [startRun, errcCapacity]

theorem stopCalls_after_once (s : StopState) (h : s.stopOnceUsed = true) (n : Nat) :
    stopCalls n s = StopExec.ok s := by
  induction n with
  | zero => rfl
  | succ m ih =>
    rw [stopCalls, stopCall]
    simp [h, ih]

/-- C2: for every n ≥ 1 stop() invocations from the post-start state, the
external network Stop runs exactly once, and after each call the whole
shutdown sequence - stop channel closed, shutdown invoked, done-channel wait
completed - has run. -/
theorem stop_exactly_once (n : Nat) (h : 1 ≤ n) :
    stopCalls n postStartStopState
      = StopExec.ok { nwAssigned := true, stopOnceUsed := true, stopcClosed := true,
                      nwStopCalls := 1, donecWaited := true } := by
  cases n with
  | zero => omega
  | succ m =>
    rw [stopCalls]
    have h1 : stopCall postStartStopState
        = StopExec.ok { nwAssigned := true, stopOnceUsed := true, stopcClosed := true,
                        nwStopCalls := 1, donecWaited := true } := rfl
    rw [h1]
    exact stopCalls_after_once _ rfl m

/-- Witness for C2 at three repeated stop() calls. -/
theorem stop_exactly_once_witness :
    stopCalls 3 postStartStopState
      = StopExec.ok { nwAssigned := true, stopOnceUsed := true, stopcClosed := true,
                      nwStopCalls := 1, donecWaited := true } :=
  stop_exactly_once 3 (by omega)

/-- C10: the code contradicts the claim: the first stop() call issued before
start() assigned the network handle (start never invoked, or local.NewNetwork
failed) reaches lc.nw.Stop on a nil interface and faults instead of
executing cleanly. -/
theorem stop_before_start_nil_deref :
    stopCall newNetworkStopState = StopExec.nilDeref := rfl

/-! ## Registry lemmas -/

theorem string_ne_empty_of_data (s : String) (h : s.data ≠ []) : s ≠ "" :=
  fun he => h (congrArg String.data he)

theorem uri_ne_empty (u r : String) : ("http://" ++ u ++ ":" ++ r) ≠ "" := by
  apply string_ne_empty_of_data
  rw [string_data_append, string_data_append, string_data_append]
  intro h
  rcases List.append_eq_nil.mp h with ⟨h3, _⟩
  rcases List.append_eq_nil.mp h3 with ⟨h4, _⟩
  rcases List.append_eq_nil.mp h4 with ⟨h5, _⟩
  exact absurd h5 (by decide)

theorem prefixed_id_ne_empty (s : String) : (nodeIDPrefixConst ++ s) ≠ "" := by
  apply string_ne_empty_of_data
  rw [string_data_append]
  intro h
  rcases List.append_eq_nil.mp h with ⟨h3, _⟩
  exact absurd h3 (by decide)

theorem fillNodeInfo_filled (info : NodeInfo) (h : NodeHandle) :
    filledInfo (fillNodeInfo info h) :=
  ⟨uri_ne_empty h.url (Nat.repr h.apiPort), prefixed_id_ne_empty h.nodeID⟩

theorem mapFill_names (reg : List (String × NodeInfo)) (name : String) (h : NodeHandle) :
    (reg.map fun p => if p.1 = name then (p.1, fillNodeInfo p.2 h) else p).map Prod.fst
      = reg.map Prod.fst := by
  induction reg with
  | nil => rfl
  | cons p rest ih =>
    by_cases hp : p.1 = name <;> simp [hp, ih]

theorem setNodeInfo_some_of_mem (reg : List (String × NodeInfo)) (name : String)
    (h : NodeHandle) (hmem : (reg.any fun p => p.1 = name) = true) :
    setNodeInfo reg name h
      = some (reg.map fun p => if p.1 = name then (p.1, fillNodeInfo p.2 h) else p) := by
  rw [setNodeInfo, if_pos hmem]

theorem setNodeInfo_eq_map (reg : List (String × NodeInfo)) (name : String)
    (h : NodeHandle) (regM : List (String × NodeInfo))
    (hset : setNodeInfo reg name h = some regM) :
    regM = reg.map fun p => if p.1 = name then (p.1, fillNodeInfo p.2 h) else p := by
  rw [setNodeInfo] at hset
  by_cases hmem : (reg.any fun p => p.1 = name) = true
  · rw [if_pos hmem] at hset
    exact (Option.some.injEq _ _ ▸ hset).symm
  · rw [if_neg hmem] at hset
    cases hset

theorem fillRegistry_total (handles : List (String × NodeHandle)) :
    ∀ reg : List (String × NodeInfo),
      (∀ q ∈ handles, ∃ p ∈ reg, p.1 = q.1) →
      ∃ reg2, fillRegistry reg handles = some reg2
        ∧ reg2.map Prod.fst = reg.map Prod.fst := by
  induction handles with
  | nil => exact fun reg _ => ⟨reg, rfl, rfl⟩
  | cons q rest ih =>
    intro reg hsub
    obtain ⟨qn, qh⟩ := q
    obtain ⟨p, hpmem, hpname⟩ := hsub (qn, qh) (List.mem_cons_self _ _)
    have hmem : (reg.any fun p => p.1 = qn) = true := by
      rw [List.any_eq_true]
      exact ⟨p, hpmem, by simp [hpname]⟩
    have hset := setNodeInfo_some_of_mem reg qn qh hmem
    have hsub2 : ∀ q2 ∈ rest,
        ∃ p2 ∈ reg.map fun p => if p.1 = qn then (p.1, fillNodeInfo p.2 qh) else p,
          p2.1 = q2.1 := by
      intro q2 hq2
      obtain ⟨p2, hp2mem, hp2name⟩ := hsub q2 (List.mem_cons_of_mem _ hq2)
      refine ⟨if p2.1 = qn then (p2.1, fillNodeInfo p2.2 qh) else p2,
        List.mem_map_of_mem _ hp2mem, ?_⟩
      by_cases hc : p2.1 = qn
      · rw [if_pos hc]
        exact hp2name
      · rw [if_neg hc]
        exact hp2name
    obtain ⟨reg2, hfill, hnames⟩ := ih _ hsub2
    refine ⟨reg2, ?_, hnames.trans (mapFill_names reg qn qh)⟩
    simp only [fillRegistry, hset]
    exact hfill

theorem fillRegistry_filled (handles : List (String × NodeHandle)) :
    ∀ reg reg2, fillRegistry reg handles = some reg2 →
      (∀ p ∈ reg, covered handles p.1 ∨ filledInfo p.2) →
      ∀ p2 ∈ reg2, filledInfo p2.2 := by
  induction handles with
  | nil =>
    intro reg reg2 hfill hinv p2 hp2
    have hr : reg = reg2 := by
      simpa [fillRegistry] using hfill
    subst hr
    rcases hinv p2 hp2 with hcov | hfil
    · rcases hcov with ⟨w, hw, _⟩
      exact absurd hw (List.not_mem_nil w)
    · exact hfil
  | cons q rest ih =>
    intro reg reg2 hfill hinv p2 hp2
    obtain ⟨qn, qh⟩ := q
    cases hset : setNodeInfo reg qn qh with
    | none => simp [fillRegistry, hset] at hfill
    | some regM =>
      have hfill2 : fillRegistry regM rest = some reg2 := by
        simpa [fillRegistry, hset] using hfill
      apply ih regM reg2 hfill2 _ p2 hp2
      intro p hp
      rw [setNodeInfo_eq_map reg qn qh regM hset] at hp
      rw [List.mem_map] at hp
      obtain ⟨a, ha, hfa⟩ := hp
      by_cases han : a.1 = qn
      · right
        rw [← hfa]
        simp only [han, if_true]
        exact fillNodeInfo_filled a.2 qh
      · rw [← hfa]
        simp only [han, if_false]
        rcases hinv a ha with hcov | hfil
        · rcases hcov with ⟨w, hw, hwn⟩
          rcases List.mem_cons.mp hw with hwq | hwrest
          · exfalso
            apply han
            rw [← hwn, hwq]
          · exact Or.inl ⟨w, hwrest, hwn⟩
        · exact Or.inr hfil

theorem fillRegistry_entries (handles : List (String × NodeHandle)) :
    ∀ reg reg2, fillRegistry reg handles = some reg2 →
      ∀ p2 ∈ reg2, p2 ∈ reg ∨ ∃ info hd, p2.2 = fillNodeInfo info hd := by
  induction handles with
  | nil =>
    intro reg reg2 hfill p2 hp2
    have hr : reg = reg2 := by
      simpa [fillRegistry] using hfill
    subst hr
    exact Or.inl hp2
  | cons q rest ih =>
    intro reg reg2 hfill p2 hp2
    obtain ⟨qn, qh⟩ := q
    cases hset : setNodeInfo reg qn qh with
    | none => simp [fillRegistry, hset] at hfill
    | some regM =>
      have hfill2 : fillRegistry regM rest = some reg2 := by
        simpa [fillRegistry, hset] using hfill
      rcases ih regM reg2 hfill2 p2 hp2 with hmem | hfil
      · rw [setNodeInfo_eq_map reg qn qh regM hset] at hmem
        rw [List.mem_map] at hmem
        obtain ⟨a, ha, hfa⟩ := hmem
        by_cases han : a.1 = qn
        · right
          refine ⟨a.2, qh, ?_⟩
          rw [← hfa]
          simp [han]
        · left
          rw [← hfa]
          simp only [han, if_false]
          exact ha
      · exact Or.inr hfil

theorem newNodeInfos_length (n : Nat) (e r w : String) :
    (newNodeInfos n e r w).length = n := by
  simp [newNodeInfos]

theorem newNodeInfos_names (n : Nat) (e r w : String) :
    (newNodeInfos n e r w).map Prod.fst = (List.range n).map nodeName := by
  rw [newNodeInfos, List.map_map]
  rfl

theorem newNodeInfos_empty_fields (n : Nat) (e r w : String) :
    ∀ p ∈ newNodeInfos n e r w, p.2.uri = "" ∧ p.2.id = "" := by
  intro p hp
  rw [newNodeInfos, List.mem_map] at hp
  obtain ⟨i, _, rfl⟩ := hp
  exact ⟨rfl, rfl⟩

/-- C6: for N configured nodes, when the handle map returned on the success
path names exactly the configured nodes, the fill loop succeeds and the
resulting registry has exactly N distinct node names (node1 through nodeN),
each entry carrying a non-empty URI and a non-empty identifier. -/
theorem start_success_registry (n : Nat) (execPath rootDataDir wl : String)
    (handles : List (String × NodeHandle))
    (hsub : ∀ q ∈ handles, ∃ p ∈ newNodeInfos n execPath rootDataDir wl, p.1 = q.1)
    (hcov : ∀ p ∈ newNodeInfos n execPath rootDataDir wl, covered handles p.1) :
    ∃ reg2, fillRegistry (newNodeInfos n execPath rootDataDir wl) handles = some reg2
      ∧ reg2.length = n
      ∧ reg2.map Prod.fst = (List.range n).map nodeName
      ∧ (reg2.map Prod.fst).Nodup
      ∧ ∀ p2 ∈ reg2, p2.2.uri ≠ "" ∧ p2.2.id ≠ "" := by
  obtain ⟨reg2, hfill, hnames⟩ := fillRegistry_total handles _ hsub
  have hnames2 : reg2.map Prod.fst = (List.range n).map nodeName := by
    rw [hnames, newNodeInfos_names]
  refine ⟨reg2, hfill, ?_, hnames2, ?_, ?_⟩
  · have hl := congrArg List.length hnames2
    simpa using hl
  · rw [hnames2]
    exact nodeNames_nodup n
  · intro p2 hp2
    exact fillRegistry_filled handles _ _ hfill
      (fun p hp => Or.inl (hcov p hp)) p2 hp2

/-- Witness for C6 with two configured nodes and matching handles. -/
theorem start_success_registry_witness :
    ∃ reg2, fillRegistry (newNodeInfos 2 "/usr/bin/dijets" "/tmp/nr" "") witnessHandles
        = some reg2
      ∧ reg2.length = 2
      ∧ reg2.map Prod.fst = (List.range 2).map nodeName
      ∧ (reg2.map Prod.fst).Nodup
      ∧ ∀ p2 ∈ reg2, p2.2.uri ≠ "" ∧ p2.2.id ≠ "" :=
  start_success_registry 2 "/usr/bin/dijets" "/tmp/nr" "" witnessHandles
    (by decide) (by decide)

/-- C8: no registry entry is ever half-initialized at an operation boundary:
after newNetwork each NodeInfo has URI and identifier both empty, and the
waitForHealthy fill loop preserves the both-empty-or-both-populated
invariant. -/
theorem registry_wellformed (n : Nat) (e r w : String)
    (handles : List (String × NodeHandle)) (reg reg2 : List (String × NodeInfo))
    (hfill : fillRegistry reg handles = some reg2)
    (hwf : ∀ p ∈ reg, wellFormedInfo p.2) :
    (∀ p ∈ newNodeInfos n e r w, wellFormedInfo p.2)
    ∧ ∀ p2 ∈ reg2, wellFormedInfo p2.2 := by
  constructor
  · intro p hp
    exact Or.inl (newNodeInfos_empty_fields n e r w p hp)
  · intro p2 hp2
    rcases fillRegistry_entries handles reg reg2 hfill p2 hp2 with hmem | ⟨info, hd, heq⟩
    · exact hwf p2 hmem
    · rw [heq]
      exact Or.inr (fillNodeInfo_filled info hd)

/-- Witness for C8 on the two-node registry and its concrete fill. -/
theorem registry_wellformed_witness :
    (∀ p ∈ newNodeInfos 2 "/usr/bin/dijets" "/tmp/nr" "", wellFormedInfo p.2)
    ∧ ∀ p2 ∈ (fillRegistry (newNodeInfos 2 "/usr/bin/dijets" "/tmp/nr" "")
        witnessHandles).getD [], wellFormedInfo p2.2 :=
  registry_wellformed 2 "/usr/bin/dijets" "/tmp/nr" "" witnessHandles
    (newNodeInfos 2 "/usr/bin/dijets" "/tmp/nr" "") _ (by decide) (by decide)

/-- C4: registry publication is an atomic visibility event: an observation
gated on the ready signal either does not occur (the signal is still open
while the fill loop is mid-update) or returns exactly the fully written
registry, never a partial intermediate state. -/
theorem registry_publish_atomic (reg : List (String × NodeInfo))
    (handles : List (String × NodeHandle)) (k : Nat) :
    (k < handles.length → readerObservation reg handles k = none)
    ∧ ∀ ro, readerObservation reg handles k = some ro →
        ro = fillRegistry reg handles := by
  constructor
  · intro hk
    have hnot : ¬ (handles.length ≤ k) := by omega
    simp [readerObservation, readycClosedAfter, hnot]
  · intro ro hro
    have hcl : handles.length ≤ k := by
      by_contra hnot
      simp [readerObservation, readycClosedAfter, hnot] at hro
    simp [readerObservation, readycClosedAfter, hcl] at hro
    rw [← hro, registryAfter, List.take_of_length_le hcl]

/-- Witness for C4: with two handles, reading at step 1 (mid-loop) yields no
observation, and the registry state at any post-publish step equals the
complete fill. -/
theorem registry_publish_atomic_witness :
    readerObservation (newNodeInfos 2 "/usr/bin/dijets" "/tmp/nr" "") witnessHandles 1 = none
    ∧ registryAfter (newNodeInfos 2 "/usr/bin/dijets" "/tmp/nr" "") witnessHandles 3
        = fillRegistry (newNodeInfos 2 "/usr/bin/dijets" "/tmp/nr" "") witnessHandles :=
  ⟨(registry_publish_atomic (newNodeInfos 2 "/usr/bin/dijets" "/tmp/nr" "") witnessHandles 1).1
      (by decide),
   (registry_publish_atomic (newNodeInfos 2 "/usr/bin/dijets" "/tmp/nr" "") witnessHandles 3).2
      (registryAfter (newNodeInfos 2 "/usr/bin/dijets" "/tmp/nr" "") witnessHandles 3)
      (by decide)⟩

end DjtxTester
